import Mathlib

/-!
# Verification of the hitsgame card-sheet engine

Shallow embedding of the card-sheet layout and code-generation engine of the
`hitsgame` repository (`src/cards_generator.py`, pagination loop of `main.py`),
together with proofs of the specification's testable properties.

Python strings are modelled as `List Char`, Python ints as `Nat`/`Int`,
Python floats as `ℚ` (every float computed by this program is a dyadic
rational obtained from small integers by `+ - *` and `/ 2`, hence exact),
and the SVG text fragments emitted by the renderer as a structured list of
`SvgElem` values carrying exactly the data interpolated into each fragment.
-/

/-- A track record (`src/models/track.py`, `class Track(NamedTuple)`).
The fields `qr_path`/`qr_mm` are modelled from the spec: the external
scannable-code generator (`qrcode` library, excluded collaborator) returns a
vector path fragment and a physical side length for the track's URL payload;
we model that output as per-track data, and `Track.qr_svg` returns it. -/
structure Track where
  year : Int
  fname : List Char
  title : List Char
  artist : List Char
  album : List Char
  md5sum : List Char
  url : List Char
  cover_url : Option (List Char)
  qr_path : List Char
  qr_mm : ℚ
deriving DecidableEq

/-- `Track.qr_svg` (`track.py`): returns the external code generator's
vector path and its physical size in mm for this track. -/
def Track.qr_svg (t : Track) : List Char × ℚ :=
  (t.qr_path, t.qr_mm)

/-- Configuration (`src/models/config.py`); only the fields the card engine
reads are kept (`font`, `grid`, `crop_marks`, `out_dir`). -/
structure Config where
  font : List Char
  grid : Bool
  crop_marks : Bool
  out_dir : List Char
deriving DecidableEq

/-- Python `s.split(" ")`: split on every single space character, keeping
empty pieces; the result is always non-empty. -/
def splitOnSpace : List Char → List (List Char)
  | [] => [[]]
  | c :: cs =>
    if c = ' ' then [] :: splitOnSpace cs
    else (c :: (splitOnSpace cs).headI) :: (splitOnSpace cs).tail

/-- Python `" ".join(words)`: interleave a single space between the words. -/
def joinWords : List (List Char) → List Char
  | [] => []
  | [w] => w
  | w :: ws => w ++ ' ' :: joinWords ws

/-- Python `html.escape(c)` on a single character (with `quote=True`,
the default used by `html.escape`). -/
def htmlEscapeChar (c : Char) : List Char :=
  if c = '&' then ("&amp;").data
  else if c = '<' then ("&lt;").data
  else if c = '>' then ("&gt;").data
  else if c = '"' then ("&quot;").data
  else if c = '\'' then ("&#x27;").data
  else [c]

/-- Python `html.escape(s)`. -/
def htmlEscape (s : List Char) : List Char :=
  s.flatMap htmlEscapeChar

/-- The split candidate inspected by `line_break_text`'s loop at index `i`:
`w1, w2 = words[:i], words[i:]`, `t, b = " ".join(w1), " ".join(w2)`,
`d = abs(len(t) - len(b))`; the triple is `(t, b, d)`. -/
def lbCand (words : List (List Char)) (i : Nat) : List Char × List Char × Nat :=
  (joinWords (words.take i), joinWords (words.drop i),
    ((joinWords (words.take i)).length - ((joinWords (words.drop i)).length : Int)).natAbs)

/-- `line_break_text` (`cards_generator.py`): below 24 characters the string
is returned as a single line; otherwise the loop over
`range(1, len(words) - 1)` keeps the first candidate whose score is strictly
below the running best, starting from `(" ".join(words), "", char_count)`
where `char_count = sum(len(word) for word in words)`. -/
def line_break_text (s : List Char) : List (List Char) :=
  if s.length < 24 then [s]
  else
    let words := splitOnSpace s
    let char_count := (words.map List.length).sum
    let best := List.foldl
      (fun acc i => if (lbCand words i).2.2 < acc.2.2 then lbCand words i else acc)
      (joinWords words, [], char_count)
      (List.range' 1 (words.length - 2))
    [best.1, best.2.1]

/-- The `text-anchor` attribute of an emitted `<text>` element. -/
inductive Anchor
  | middle
  | anchorEnd
deriving DecidableEq

/-- One emitted SVG fragment of `Table.render_svg` / `render_text_svg`:
each constructor corresponds to one `parts.append`d (or yielded) fragment of
the Python code and carries exactly the data interpolated into it. -/
inductive SvgElem
  /-- the fixed `<svg ...>` header line -/
  | header
  /-- the fixed white background `<rect>` -/
  | bgRect
  /-- the `<style>` block (parameterised by the configured font family) -/
  | style (font : List Char)
  /-- `<rect x y width height fill="none">` (table outline) -/
  | rect (x y w h : ℚ)
  /-- `<line x1 y1 x2 y2>` (grid line or crop mark) -/
  | line (x1 y1 x2 y2 : ℚ)
  /-- `<text x y text-anchor class>content</text>` -/
  | text (x y : ℚ) (anchor : Anchor) (cls : List Char) (content : List Char)
  /-- `<g transform="translate(x, y)">` wrapping a QR path, with `</g>` -/
  | qrGroup (x y : ℚ) (path : List Char)
deriving DecidableEq

/-- `render_text_svg` (`cards_generator.py`): line-break the string, then
emit one centered `<text>` element per line at
`y + line_height*(1+i) - h/2` where `h = line_height * len(lines)`. -/
def render_text_svg (x_mm y_mm : ℚ) (s : List Char) (cls : List Char) : List SvgElem :=
  let lines := line_break_text s
  let line_height_mm : ℚ := 6
  let h_mm : ℚ := line_height_mm * lines.length
  lines.enum.map (fun p =>
    SvgElem.text x_mm (y_mm + (line_height_mm * (1 + (p.1 : ℚ)) - h_mm / 2))
      Anchor.middle cls (htmlEscape p.2))

/-- Page side being rendered: `mode == "qr"` or `mode == "title"`. -/
inductive Mode
  | qr
  | title
deriving DecidableEq

/-- `class Table(NamedTuple)` (`cards_generator.py`): one page of cards. -/
structure Table where
  cells : List Track
  width : Nat := 3
  height : Nat := 4
deriving DecidableEq

/-- `Table.new()`: an empty page with the default 3×4 grid. -/
def Table.new : Table := { cells := [] }

/-- `Table.append(track)`: append one track to the page's cells. -/
def Table.append (t : Table) (track : Track) : Table :=
  { t with cells := t.cells ++ [track] }

/-- `Table.is_empty()`: `len(self.cells) == 0`. -/
def Table.is_empty (t : Table) : Bool :=
  t.cells.length == 0

/-- `Table.is_full()`: `len(self.cells) >= self.width * self.height`. -/
def Table.is_full (t : Table) : Bool :=
  decide (t.width * t.height ≤ t.cells.length)

/-- `Table.render_svg` (`cards_generator.py`): the full page-side drawing as
the ordered list of emitted fragments.  Mirrors the Python line for line:
fixed A4 page (210×297), card side 62, `hmargin = (210 - 62*width)/2`, the
vertical margin first computed from the page height and then overwritten
with the horizontal margin (the second `let vmargin_mm` shadows the first
exactly as the Python reassignment does), optional grid and crop marks, then
the per-card content (mirrored column for `qr` mode, unmirrored for
`title` mode) and the right-aligned footer. -/
def Table.render_svg (t : Table) (config : Config) (mode : Mode)
    (page_footer : List Char) : List SvgElem :=
  let w_mm : ℚ := 210
  let h_mm : ℚ := 297
  let side_mm : ℚ := 62
  let tw_mm : ℚ := side_mm * t.width
  let th_mm : ℚ := side_mm * t.height
  let hmargin_mm : ℚ := (w_mm - tw_mm) / 2
  let vmargin_mm : ℚ := (h_mm - th_mm) / 2
  let vmargin_mm : ℚ := hmargin_mm
  [SvgElem.header, SvgElem.bgRect, SvgElem.style config.font]
  ++ (if config.grid then [SvgElem.rect hmargin_mm vmargin_mm tw_mm th_mm] else [])
  ++ (List.range (t.width + 1)).flatMap (fun ix =>
      let x_mm : ℚ := hmargin_mm + (ix : ℚ) * side_mm
      (if config.grid ∧ 0 < ix ∧ ix ≤ t.width then
        [SvgElem.line x_mm vmargin_mm x_mm (vmargin_mm + th_mm)]
      else [])
      ++ (if config.crop_marks then
        [SvgElem.line x_mm (vmargin_mm - 5) x_mm (vmargin_mm - 1),
         SvgElem.line x_mm (vmargin_mm + th_mm + 1) x_mm (vmargin_mm + th_mm + 5)]
      else []))
  ++ (List.range (t.height + 1)).flatMap (fun iy =>
      let y_mm : ℚ := vmargin_mm + (iy : ℚ) * side_mm
      (if config.grid ∧ 0 < iy ∧ iy ≤ t.height then
        [SvgElem.line hmargin_mm y_mm (hmargin_mm + tw_mm) y_mm]
      else [])
      ++ (if config.crop_marks then
        [SvgElem.line (hmargin_mm - 5) y_mm (hmargin_mm - 1) y_mm,
         SvgElem.line (hmargin_mm + tw_mm + 1) y_mm (hmargin_mm + tw_mm + 5) y_mm]
      else []))
  ++ t.cells.enum.flatMap (fun p =>
      match mode with
      | Mode.qr =>
        let ix := t.width - 1 - p.1 % t.width
        let iy := p.1 / t.width
        let q := p.2.qr_svg
        let x_mm : ℚ := hmargin_mm + (ix : ℚ) * side_mm + (side_mm - q.2) / 2
        let y_mm : ℚ := vmargin_mm + (iy : ℚ) * side_mm + (side_mm - q.2) / 2
        [SvgElem.qrGroup x_mm y_mm q.1]
      | Mode.title =>
        let ix := p.1 % t.width
        let iy := p.1 / t.width
        let x_mm : ℚ := hmargin_mm + ((ix : ℚ) + 0.5) * side_mm
        let y_mm : ℚ := vmargin_mm + ((iy : ℚ) + 0.5) * side_mm
        [SvgElem.text x_mm (y_mm + 6.5) Anchor.middle ("year").data
          (toString p.2.year).data]
        ++ render_text_svg x_mm (y_mm - 19) p.2.artist ("artist").data
        ++ render_text_svg x_mm (y_mm + 18) p.2.title ("title").data)
  ++ [SvgElem.text (w_mm - hmargin_mm) (h_mm - hmargin_mm) Anchor.anchorEnd
      ("footer").data (htmlEscape page_footer)]

/-- The pagination loop of `main.py`: append each track to the current
table, seal it into `tables` the moment it becomes full, and after the input
is exhausted seal the final table only if it is non-empty. -/
def paginateMain : List Track → Table → List Table → List Table
  | [], table, tables => if table.is_empty then tables else tables ++ [table]
  | track :: rest, table, tables =>
    if (table.append track).is_full then
      paginateMain rest Table.new (tables ++ [table.append track])
    else
      paginateMain rest (table.append track) tables

/-- Pagination as `main.py` runs it: start from `Table.new()` and an empty
list of sealed tables. -/
def paginate (tracks : List Track) : List Table :=
  paginateMain tracks Table.new []

/-- Filesystem oracle for the pipeline driver: `fs f` is the instant (in
time-units) at which file `f` first exists, or `none` if it never appears;
`os.path.isfile(f)` at time `t` is existence at or before `t`. -/
def isfile (fs : List Char → Option ℚ) (t : ℚ) (f : List Char) : Bool :=
  match fs f with
  | some t₀ => decide (t₀ ≤ t)
  | none => false

/-- The polling loop of `generate_cards`: `for _ in range(20): if
os.path.isfile(pdf_file): break; time.sleep(0.1)` — check, and if absent
sleep 0.1 time-units, up to `n` times; returns the clock after the loop. -/
def pollFile (fs : List Char → Option ℚ) (f : List Char) : ℚ → Nat → ℚ
  | t, 0 => t
  | t, n + 1 => if isfile fs t f then t else pollFile fs f (t + 1/10) n

/-- The conversion loop of `generate_cards`: for each `(svg, pdf)` pair
invoke the external converter (its effect is captured by the oracle `fs`),
poll up to 20 times, and re-check; if the pdf still does not exist the run
aborts via `exit(1)` after naming the missing file (modelled as
`Except.error (1, pdf)`). Returns the clock on success. -/
def convertLoop (fs : List Char → Option ℚ) :
    List (List Char × List Char) → ℚ → Except (Nat × List Char) ℚ
  | [], t => Except.ok t
  | p :: rest, t =>
    if isfile fs (pollFile fs p.2 t 20) p.2 then
      convertLoop fs rest (pollFile fs p.2 t 20)
    else Except.error (1, p.2)

/-- `os.path.join("temp", f"\x7bp\x7da.svg")` and friends: the intermediate
drawing file for page `p` (1-indexed) and side letter `side`. -/
def svgName (p : Nat) (side : List Char) : List Char :=
  ("temp/").data ++ (toString p).data ++ side ++ (".svg").data

/-- The converted per-side document file for page `p` and side `side`. -/
def pdfName (p : Nat) (side : List Char) : List Char :=
  ("temp/").data ++ (toString p).data ++ side ++ (".pdf").data

/-- `pdf_inputs` as built by the first loop of `generate_cards`:
`for i, table in enumerate(tables): pdf_inputs.extend([title_svg, qr_svg])`. -/
def pdfInputs (tables : List Table) : List (List Char) :=
  tables.enum.foldl (fun acc p => acc ++ [svgName (p.1 + 1) ['a'], svgName (p.1 + 1) ['b']]) []

/-- `pdf_outputs` as built by the first loop of `generate_cards`. -/
def pdfOutputs (tables : List Table) : List (List Char) :=
  tables.enum.foldl (fun acc p => acc ++ [pdfName (p.1 + 1) ['a'], pdfName (p.1 + 1) ['b']]) []

/-- The SVG files written by the first loop of `generate_cards`: for page
`p = i+1`, `{p}a.svg` holds the title side rendered with footer `"{p}a"`
and `{p}b.svg` the qr side with footer `"{p}b"`. -/
def svgWrites (config : Config) (tables : List Table) : List (List Char × List SvgElem) :=
  tables.enum.foldl (fun acc p =>
    acc ++ [(svgName (p.1 + 1) ['a'],
             p.2.render_svg config Mode.title ((toString (p.1 + 1)).data ++ ['a'])),
            (svgName (p.1 + 1) ['b'],
             p.2.render_svg config Mode.qr ((toString (p.1 + 1)).data ++ ['b']))]) []

/-- Observable outcome of a successful `generate_cards` run: the SVG files
written, the order in which the per-side PDFs are merged
(`for pdf_file in pdf_outputs: merger.append(pdf_file)`), and the final
merged document's path (`os.path.join(out_dir, "cards.pdf")`). -/
structure RunOutput where
  writes : List (List Char × List SvgElem)
  mergedOrder : List (List Char)
  finalPdf : List Char
deriving DecidableEq

/-- `generate_cards` (`cards_generator.py`): write both sides of every page,
convert each SVG in `zip(pdf_inputs, pdf_outputs)` order with bounded
polling, and — only if no conversion timed out — sleep 15 time-units and
merge all PDFs in `pdf_outputs` order into `out_dir/cards.pdf`.
A polling timeout aborts with exit status 1 before the merge step. -/
def generate_cards (fs : List Char → Option ℚ) (tables : List Table)
    (config : Config) : Except (Nat × List Char) RunOutput :=
  match convertLoop fs ((pdfInputs tables).zip (pdfOutputs tables)) 0 with
  | Except.error e => Except.error e
  | Except.ok _t =>
    Except.ok { writes := svgWrites config tables,
                mergedOrder := pdfOutputs tables,
                finalPdf := config.out_dir ++ ("/cards.pdf").data }

/-- Spec §4.2: "Cell center for cell `(col, row)`, 0-indexed, row-major:
`x = margin + (col+0.5)×side`" with `margin = (pageWidth − columns×side)/2`,
page width 210, side 62. -/
def cellCenterX (t : Table) (col : Nat) : ℚ :=
  (210 - 62 * t.width) / 2 + ((col : ℚ) + 0.5) * 62

/-- Spec §4.2: cell center `y = margin + (row+0.5)×side` (the one margin is
used vertically as well, by the margin-symmetry design). -/
def cellCenterY (t : Table) (row : Nat) : ℚ :=
  (210 - 62 * t.width) / 2 + ((row : ℚ) + 0.5) * 62

/-- Modelled from the spec's words (claim C4): the candidate score "with
spaces excluded from the word-length sum used for scoring" — the absolute
difference of the summed word lengths of the two groups, ignoring the
joining spaces.  This is the claimed scoring rule, to be compared with the
code's actual `abs(len(t) - len(b))` over the joined lines. -/
def specScore (words : List (List Char)) (i : Nat) : Nat :=
  ((((words.take i).map List.length).sum : Int)
    - (((words.drop i).map List.length).sum : Int)).natAbs

/-! ## Text Fitter: helper lemmas -/

/-- Unfolding equation of `splitOnSpace` on a non-empty string. -/
theorem splitOnSpace_cons (c : Char) (cs : List Char) :
    splitOnSpace (c :: cs) = if c = ' ' then [] :: splitOnSpace cs
      else (c :: (splitOnSpace cs).headI) :: (splitOnSpace cs).tail := rfl

/-- `splitOnSpace` never returns the empty list. -/
theorem splitOnSpace_ne_nil (s : List Char) : splitOnSpace s ≠ [] := by
  cases s with
  | nil => simp [splitOnSpace]
  | cons c cs =>
    rw [splitOnSpace_cons]
    split <;> simp

/-- Unfolding equation of `joinWords` on a list of at least two words. -/
theorem joinWords_cons_cons (w x : List Char) (ws : List (List Char)) :
    joinWords (w :: x :: ws) = w ++ ' ' :: joinWords (x :: ws) := rfl

/-- Joining the pieces of `splitOnSpace` with single spaces reproduces the
original string (`" ".join(s.split(" ")) == s`). -/
theorem joinWords_splitOnSpace (s : List Char) : joinWords (splitOnSpace s) = s := by
  induction s with
  | nil => rfl
  | cons c cs ih =>
    rw [splitOnSpace_cons]
    cases h : splitOnSpace cs with
    | nil => exact absurd h (splitOnSpace_ne_nil cs)
    | cons w ws =>
      rw [h] at ih
      by_cases hc : c = ' '
      · subst hc
        rw [if_pos rfl, joinWords_cons_cons]
        simpa using ih
      · rw [if_neg hc]
        simp only [List.headI, List.tail_cons]
        cases ws with
        | nil => exact congrArg (List.cons c) ih
        | cons w2 ws2 =>
          rw [joinWords_cons_cons] at ih ⊢
          rw [List.cons_append, ih]

/-- `joinWords` distributes over the concatenation of two non-empty groups,
inserting the single space that separates them. -/
theorem joinWords_append (l₁ l₂ : List (List Char)) (h₁ : l₁ ≠ []) (h₂ : l₂ ≠ []) :
    joinWords (l₁ ++ l₂) = joinWords l₁ ++ ' ' :: joinWords l₂ := by
  induction l₁ with
  | nil => exact absurd rfl h₁
  | cons x xs ih =>
    cases xs with
    | nil =>
      cases l₂ with
      | nil => exact absurd rfl h₂
      | cons y ys => simp [joinWords_cons_cons, joinWords]
    | cons y ys =>
      have hih := ih (by simp)
      rw [List.cons_append] at hih
      rw [List.cons_append, List.cons_append, joinWords_cons_cons, hih,
        joinWords_cons_cons]
      simp

/-- Characterisation of the strict-improvement scan of `line_break_text`:
folding `if (cand i).2.2 < acc.2.2 then cand i else acc` over
`range' a n` either leaves the initial accumulator (when no candidate
strictly beats it) or returns the earliest candidate attaining the minimum
score, which strictly beats the initial accumulator and every earlier
candidate and is at most every later one. -/
theorem lbFold_spec (cand : Nat → List Char × List Char × Nat) :
    ∀ (n a : Nat) (acc : List Char × List Char × Nat),
      (List.foldl (fun acc i => if (cand i).2.2 < acc.2.2 then cand i else acc)
          acc (List.range' a n) = acc
        ∧ ∀ j, a ≤ j → j < a + n → acc.2.2 ≤ (cand j).2.2)
      ∨ (∃ i, a ≤ i ∧ i < a + n
        ∧ List.foldl (fun acc i => if (cand i).2.2 < acc.2.2 then cand i else acc)
            acc (List.range' a n) = cand i
        ∧ (cand i).2.2 < acc.2.2
        ∧ (∀ j, a ≤ j → j < i → (cand i).2.2 < (cand j).2.2)
        ∧ (∀ j, i ≤ j → j < a + n → (cand i).2.2 ≤ (cand j).2.2)) := by
  intro n
  induction n with
  | zero =>
    intro a acc
    left
    exact ⟨rfl, fun j h1 h2 => absurd h2 (by omega)⟩
  | succ n ih =>
    intro a acc
    rw [List.range'_succ, List.foldl_cons]
    by_cases h : (cand a).2.2 < acc.2.2
    · rw [if_pos h]
      rcases ih (a + 1) (cand a) with ⟨heq, hall⟩ | ⟨i, hi1, hi2, heq, hlt, hbefore, hafter⟩
      · right
        refine ⟨a, le_refl a, by omega, heq, h, fun j h1 h2 => absurd h1 (by omega),
          fun j h1 h2 => ?_⟩
        rcases Nat.eq_or_lt_of_le h1 with rfl | h1'
        · exact le_refl _
        · exact hall j (by omega) (by omega)
      · right
        refine ⟨i, by omega, by omega, heq, lt_trans hlt h, fun j h1 h2 => ?_,
          fun j h1 h2 => hafter j h1 (by omega)⟩
        rcases Nat.eq_or_lt_of_le h1 with rfl | h1'
        · exact hlt
        · exact hbefore j (by omega) h2
    · rw [if_neg h]
      rcases ih (a + 1) acc with ⟨heq, hall⟩ | ⟨i, hi1, hi2, heq, hlt, hbefore, hafter⟩
      · left
        refine ⟨heq, fun j h1 h2 => ?_⟩
        rcases Nat.eq_or_lt_of_le h1 with rfl | h1'
        · omega
        · exact hall j (by omega) (by omega)
      · right
        refine ⟨i, by omega, by omega, heq, hlt, fun j h1 h2 => ?_,
          fun j h1 h2 => hafter j h1 (by omega)⟩
        rcases Nat.eq_or_lt_of_le h1 with rfl | h1'
        · omega
        · exact hbefore j (by omega) h2

/-- Unfolding of `line_break_text` on a long string: the returned pair is
the result of the strict-improvement scan. -/
theorem line_break_text_eq_fold (s : List Char) (h : ¬ s.length < 24) :
    line_break_text s =
      [(List.foldl
          (fun acc i => if (lbCand (splitOnSpace s) i).2.2 < acc.2.2
            then lbCand (splitOnSpace s) i else acc)
          (joinWords (splitOnSpace s), [], ((splitOnSpace s).map List.length).sum)
          (List.range' 1 ((splitOnSpace s).length - 2))).1,
       (List.foldl
          (fun acc i => if (lbCand (splitOnSpace s) i).2.2 < acc.2.2
            then lbCand (splitOnSpace s) i else acc)
          (joinWords (splitOnSpace s), [], ((splitOnSpace s).map List.length).sum)
          (List.range' 1 ((splitOnSpace s).length - 2))).2.1] := by
  rw [line_break_text, if_neg h]

/-- If no split candidate is scanned or none strictly improves on the
initial accumulator, the result is `[s, ""]`; in particular this happens
whenever the word count is below 3 (empty scan range). -/
theorem line_break_text_no_split (s : List Char) (h24 : ¬ s.length < 24)
    (hw : (splitOnSpace s).length < 3) :
    line_break_text s = [s, []] := by
  rw [line_break_text_eq_fold s h24]
  have hr : (splitOnSpace s).length - 2 = 0 := by omega
  rw [hr]
  simp [joinWords_splitOnSpace]

/-! ## Claim C9 — short strings are returned unchanged as a single line -/

/-- C9: for every string `s` of length strictly less than 24 characters,
`line_break_text s` returns the one-element list `[s]`, with `s` unchanged. -/
theorem C9_short_unchanged (s : List Char) (h : s.length < 24) :
    line_break_text s = [s] := by
  rw [line_break_text, if_pos h]

/-- Witness for C9 at the concrete 12-character string `"short string"`. -/
theorem C9_short_unchanged_witness :
    line_break_text ("short string").data = [("short string").data] :=
  C9_short_unchanged ("short string").data (by decide)

/-! ## Claim C5 — degenerate long input with fewer than 2 words -/

/-- C5 counterexample: the 24-character single-word string of `'c'`s has
fewer than 2 space-separated words and at least 24 characters, and
`line_break_text` returns the two-element list `[s, ""]`, not the text as a
single line `[s]` as the claim states. -/
theorem C5_counterexample :
    24 ≤ ("cccccccccccccccccccccccc").data.length
    ∧ (splitOnSpace ("cccccccccccccccccccccccc").data).length < 2
    ∧ line_break_text ("cccccccccccccccccccccccc").data
        = [("cccccccccccccccccccccccc").data, []]
    ∧ line_break_text ("cccccccccccccccccccccccc").data
        ≠ [("cccccccccccccccccccccccc").data] := by decide

/-- C5 (amended): for every input string of length at least 24 with fewer
than 2 space-separated words, `line_break_text` does not fail and returns
the text unbroken as the first line together with an empty second line,
i.e. `[s, ""]` (not the one-element list `[s]`). -/
theorem C5_single_word_two_lines (s : List Char) (h24 : 24 ≤ s.length)
    (hw : (splitOnSpace s).length < 2) :
    line_break_text s = [s, []] :=
  line_break_text_no_split s (by omega) (by omega)

/-- Witness for the amended C5 at the 24-character single word. -/
theorem C5_single_word_two_lines_witness :
    line_break_text ("cccccccccccccccccccccccc").data
      = [("cccccccccccccccccccccccc").data, []] :=
  C5_single_word_two_lines ("cccccccccccccccccccccccc").data (by decide) (by decide)

/-! ## Claim C3 — reconstruction of a two-line split -/

/-- C3 counterexample: on the 24-character single-word string of `'a'`s,
`line_break_text` returns the two-element list `[s, ""]`, and
`top ++ " " ++ bot = s ++ " " ≠ s`: the claimed reconstruction fails when
no split point improves on the initial unsplit state. -/
theorem C3_counterexample :
    ∃ top bot, line_break_text ("aaaaaaaaaaaaaaaaaaaaaaaa").data = [top, bot]
      ∧ top ++ ' ' :: bot ≠ ("aaaaaaaaaaaaaaaaaaaaaaaa").data :=
  ⟨("aaaaaaaaaaaaaaaaaaaaaaaa").data, [], by decide, by decide⟩

/-- C3 (amended): for every string `s` on which `line_break_text` returns a
two-line split `[top, bot]` whose second line is non-empty (i.e. an actual
split was chosen), concatenating `top`, a single space and `bot` reproduces
`s` exactly. -/
theorem C3_reconstruction (s top bot : List Char)
    (h : line_break_text s = [top, bot]) (hbot : bot ≠ []) :
    top ++ ' ' :: bot = s := by
  by_cases h24 : s.length < 24
  · rw [line_break_text, if_pos h24] at h
    exact absurd h (by simp)
  · rw [line_break_text_eq_fold s h24] at h
    simp only [List.cons.injEq, and_true] at h
    rcases lbFold_spec (lbCand (splitOnSpace s)) ((splitOnSpace s).length - 2) 1
        (joinWords (splitOnSpace s), [], ((splitOnSpace s).map List.length).sum)
      with ⟨heq, _⟩ | ⟨i, hi1, hi2, heq, _, _, _⟩
    · rw [heq] at h
      exact absurd h.2.symm hbot
    · rw [heq] at h
      simp only [lbCand] at h
      have htake : (splitOnSpace s).take i ≠ [] := by
        rw [Ne, List.take_eq_nil_iff]
        push_neg
        exact ⟨by omega, splitOnSpace_ne_nil s⟩
      have hdrop : (splitOnSpace s).drop i ≠ [] := by
        rw [Ne, List.drop_eq_nil_iff]
        omega
      rw [← h.1, ← h.2, ← joinWords_append _ _ htake hdrop, List.take_append_drop,
        joinWords_splitOnSpace]

/-- Witness for the amended C3 at a 26-character three-word string that
`line_break_text` genuinely splits. -/
theorem C3_reconstruction_witness :
    ("aaaaaaaa").data ++ ' ' :: ("bbbbbbbb cccccccc").data
      = ("aaaaaaaa bbbbbbbb cccccccc").data :=
  C3_reconstruction ("aaaaaaaa bbbbbbbb cccccccc").data
    ("aaaaaaaa").data ("bbbbbbbb cccccccc").data (by decide) (by decide)

/-! ## Claim C4 — the scoring rule and minimisation of the split scan -/

/-- C4 counterexample: on `"aaaaaaa bbbbbbb cc dd ee"` (word lengths
7,7,2,2,2) the code returns the split after the second word, although under
the claimed scoring rule — spaces excluded from the word-length sums —
split index 1 scores strictly better (6) than the returned split index 2
(8): the returned pair is not the minimiser of the claimed score, so the
code actually scores by the lengths of the joined lines, spaces included. -/
theorem C4_counterexample :
    line_break_text ("aaaaaaa bbbbbbb cc dd ee").data
        = [("aaaaaaa bbbbbbb").data, ("cc dd ee").data]
    ∧ line_break_text ("aaaaaaa bbbbbbb cc dd ee").data
        ≠ [("aaaaaaa").data, ("bbbbbbb cc dd ee").data]
    ∧ specScore (splitOnSpace ("aaaaaaa bbbbbbb cc dd ee").data) 1
        < specScore (splitOnSpace ("aaaaaaa bbbbbbb cc dd ee").data) 2 := by
  decide

/-- C4 (amended): for a string of length at least 24 with at least 3
space-separated words, `line_break_text` considers every split index
`1 ≤ i ≤ wordCount−2`, joins words `[0,i)` and `[i,wordCount)` with spaces,
and scores each candidate by the absolute difference in character count of
the two **joined** lines (spaces included, `abs(len(top)-len(bot))`);
provided some candidate scores strictly below the space-free total word
length (the score the unsplit initial state starts with), it returns the
candidate with the minimum score, ties resolved in favour of the earliest
split index (strict `<` during a left-to-right scan). -/
theorem C4_joined_line_scoring (s : List Char) (h24 : 24 ≤ s.length)
    (hw : 3 ≤ (splitOnSpace s).length)
    (hbeat : ∃ j, 1 ≤ j ∧ j ≤ (splitOnSpace s).length - 2 ∧
      (lbCand (splitOnSpace s) j).2.2 < ((splitOnSpace s).map List.length).sum) :
    ∃ i, 1 ≤ i ∧ i ≤ (splitOnSpace s).length - 2 ∧
      line_break_text s
        = [(lbCand (splitOnSpace s) i).1, (lbCand (splitOnSpace s) i).2.1] ∧
      (∀ j, 1 ≤ j → j ≤ (splitOnSpace s).length - 2 →
        (lbCand (splitOnSpace s) i).2.2 ≤ (lbCand (splitOnSpace s) j).2.2) ∧
      (∀ j, 1 ≤ j → j < i →
        (lbCand (splitOnSpace s) i).2.2 < (lbCand (splitOnSpace s) j).2.2) := by
  have h24' : ¬ s.length < 24 := by omega
  rcases lbFold_spec (lbCand (splitOnSpace s)) ((splitOnSpace s).length - 2) 1
      (joinWords (splitOnSpace s), [], ((splitOnSpace s).map List.length).sum)
    with ⟨heq, hall⟩ | ⟨i, hi1, hi2, heq, hlt, hbefore, hafter⟩
  · obtain ⟨j, hj1, hj2, hj3⟩ := hbeat
    exact absurd hj3 (Nat.not_lt.mpr (hall j hj1 (by omega)))
  · refine ⟨i, hi1, by omega, ?_, ?_, hbefore⟩
    · rw [line_break_text_eq_fold s h24', heq]
    · intro j hj1 hj2
      rcases Nat.lt_or_ge j i with hji | hji
      · exact le_of_lt (hbefore j hj1 hji)
      · exact hafter j hji (by omega)

/-- Witness for the amended C4 at `"aaaaaaa bbbbbbb cc dd ee"`: split
index 1 (score 9, spaces included) strictly beats the space-free total 20,
so the scan chooses a genuine minimiser (index 2, score 7). -/
theorem C4_joined_line_scoring_witness :
    ∃ i, 1 ≤ i ∧ i ≤ (splitOnSpace ("aaaaaaa bbbbbbb cc dd ee").data).length - 2 ∧
      line_break_text ("aaaaaaa bbbbbbb cc dd ee").data
        = [(lbCand (splitOnSpace ("aaaaaaa bbbbbbb cc dd ee").data) i).1,
           (lbCand (splitOnSpace ("aaaaaaa bbbbbbb cc dd ee").data) i).2.1] ∧
      (∀ j, 1 ≤ j → j ≤ (splitOnSpace ("aaaaaaa bbbbbbb cc dd ee").data).length - 2 →
        (lbCand (splitOnSpace ("aaaaaaa bbbbbbb cc dd ee").data) i).2.2
          ≤ (lbCand (splitOnSpace ("aaaaaaa bbbbbbb cc dd ee").data) j).2.2) ∧
      (∀ j, 1 ≤ j → j < i →
        (lbCand (splitOnSpace ("aaaaaaa bbbbbbb cc dd ee").data) i).2.2
          < (lbCand (splitOnSpace ("aaaaaaa bbbbbbb cc dd ee").data) j).2.2) :=
  C4_joined_line_scoring ("aaaaaaa bbbbbbb cc dd ee").data (by decide) (by decide)
    ⟨1, by decide, by decide, by decide⟩

/-! ## Claim C10 — long inputs always yield two lines -/

/-- C10: for every input of length at least 24, `line_break_text` returns a
list of exactly 2 elements; when the input has fewer than 3 space-separated
words no split candidate is evaluated and the result is `[s, ""]`, whose
empty second line `render_text_svg` still emits as an (empty) text element,
while the first line's vertical offset is the two-line block offset
(`y + 0` rather than the single-line `y + 3`). -/
theorem C10_long_two_elements (s : List Char) (h24 : 24 ≤ s.length) :
    (line_break_text s).length = 2
    ∧ ((splitOnSpace s).length < 3 →
        line_break_text s = [s, []]
        ∧ ∀ (x y : ℚ) (cls : List Char),
            render_text_svg x y s cls
              = [SvgElem.text x y Anchor.middle cls (htmlEscape s),
                 SvgElem.text x (y + 6) Anchor.middle cls []]) := by
  have h24' : ¬ s.length < 24 := by omega
  constructor
  · rw [line_break_text_eq_fold s h24']
    rfl
  · intro hw
    have hres := line_break_text_no_split s h24' hw
    refine ⟨hres, fun x y cls => ?_⟩
    simp only [render_text_svg, hres, List.enum_cons, List.enumFrom, List.map_cons,
      List.map_nil, List.length_cons, List.length_nil]
    norm_num [htmlEscape]

/-- Witness for C10 at the 25-character single word of `'b'`s. -/
theorem C10_long_two_elements_witness :
    (line_break_text ("bbbbbbbbbbbbbbbbbbbbbbbbb").data).length = 2
    ∧ line_break_text ("bbbbbbbbbbbbbbbbbbbbbbbbb").data
        = [("bbbbbbbbbbbbbbbbbbbbbbbbb").data, []]
    ∧ render_text_svg 0 0 ("bbbbbbbbbbbbbbbbbbbbbbbbb").data []
        = [SvgElem.text 0 0 Anchor.middle [] (htmlEscape ("bbbbbbbbbbbbbbbbbbbbbbbbb").data),
           SvgElem.text 0 (0 + 6) Anchor.middle [] []] := by
  have h := C10_long_two_elements ("bbbbbbbbbbbbbbbbbbbbbbbbb").data (by decide)
  exact ⟨h.1, (h.2 (by decide)).1, (h.2 (by decide)).2 0 0 []⟩

/-! ## Deck Paginator: helper lemmas -/

/-- `dropLast` of a cons with a non-empty tail. -/
theorem dropLast_cons₂ {α : Type} (a b : α) (l : List α) :
    (a :: b :: l).dropLast = a :: (b :: l).dropLast := rfl

/-- The sealed-tables accumulator of the pagination loop is a pure prefix. -/
theorem paginateMain_acc (ts : List Track) :
    ∀ (table : Table) (tables : List Table),
      paginateMain ts table tables = tables ++ paginateMain ts table [] := by
  induction ts with
  | nil =>
    intro table tables
    by_cases h : table.is_empty <;> simp [paginateMain, h]
  | cons tr rest ih =>
    intro table tables
    by_cases h : (table.append tr).is_full
    · rw [paginateMain, if_pos h, paginateMain, if_pos h,
        ih Table.new (tables ++ [table.append tr]), ih Table.new ([] ++ [table.append tr])]
      simp
    · rw [paginateMain, if_neg h, paginateMain, if_neg h]
      exact ih (table.append tr) tables

/-- Concatenating the cells of all produced pages yields the pending cells
followed by the remaining input: pagination loses, duplicates and reorders
nothing. -/
theorem paginateMain_flatten (ts : List Track) :
    ∀ table : Table,
      ((paginateMain ts table []).map Table.cells).flatten = table.cells ++ ts := by
  induction ts with
  | nil =>
    intro table
    by_cases h : table.is_empty
    · have hc : table.cells = [] := by
        simpa [Table.is_empty, List.length_eq_zero] using h
      simp [paginateMain, h, hc]
    · simp [paginateMain, h]
  | cons tr rest ih =>
    intro table
    by_cases h : (table.append tr).is_full
    · rw [paginateMain, if_pos h, paginateMain_acc]
      have hih := ih Table.new
      rw [show Table.new.cells = ([] : List Track) from rfl, List.nil_append] at hih
      simp [hih, Table.append]
    · rw [paginateMain, if_neg h, ih (table.append tr)]
      simp [Table.append]

/-- The number of produced pages is the ceiling of (pending + remaining)/12,
for a 12-capacity current table that is not yet full. -/
theorem paginateMain_length (ts : List Track) :
    ∀ table : Table, table.width * table.height = 12 → table.cells.length < 12 →
      (paginateMain ts table []).length = (table.cells.length + ts.length + 11) / 12 := by
  induction ts with
  | nil =>
    intro table hcap hlen
    by_cases h : table.is_empty
    · have hc : table.cells.length = 0 := by
        simpa [Table.is_empty] using h
      simp [paginateMain, h, hc]
    · have hc : table.cells.length ≠ 0 := by
        simpa [Table.is_empty] using h
      simp only [paginateMain, h, if_false, Bool.false_eq_true, List.nil_append,
        List.length_singleton, List.length_nil]
      omega
  | cons tr rest ih =>
    intro table hcap hlen
    by_cases h : (table.append tr).is_full
    · have hfull : 12 ≤ table.cells.length + 1 := by
        simpa [Table.is_full, Table.append, hcap] using h
      rw [paginateMain, if_pos h, paginateMain_acc]
      have hih := ih Table.new rfl (by decide)
      rw [show Table.new.cells = ([] : List Track) from rfl] at hih
      simp only [List.length_nil] at hih
      simp only [List.nil_append, List.singleton_append, List.length_cons, hih]
      omega
    · have hnotfull : table.cells.length < 11 := by
        have hh := h
        simp only [Table.is_full, Table.append, hcap, decide_eq_true_eq, not_le,
          List.length_append, List.length_singleton] at hh
        omega
      rw [paginateMain, if_neg h]
      have hih := ih (table.append tr) (by simpa [Table.append] using hcap)
        (by simp only [Table.append, List.length_append, List.length_singleton]; omega)
      rw [hih]
      simp only [Table.append, List.length_append, List.length_singleton,
        List.length_cons, List.length_nil]
      omega

/-- No produced page ever holds more than 12 tracks. -/
theorem paginateMain_le (ts : List Track) :
    ∀ table : Table, table.width * table.height = 12 → table.cells.length < 12 →
      ∀ p ∈ paginateMain ts table [], p.cells.length ≤ 12 := by
  induction ts with
  | nil =>
    intro table hcap hlen p hp
    by_cases h : table.is_empty
    · simp [paginateMain, h] at hp
    · simp only [paginateMain, h, if_false, Bool.false_eq_true, List.nil_append,
        List.mem_singleton] at hp
      subst hp
      omega
  | cons tr rest ih =>
    intro table hcap hlen p hp
    by_cases h : (table.append tr).is_full
    · rw [paginateMain, if_pos h, paginateMain_acc] at hp
      simp only [List.nil_append, List.singleton_append, List.mem_cons] at hp
      rcases hp with rfl | hp'
      · simp only [Table.append, List.length_append, List.length_singleton]
        omega
      · exact ih Table.new rfl (by decide) p hp'
    · rw [paginateMain, if_neg h] at hp
      have hnotfull : table.cells.length < 11 := by
        have hh := h
        simp only [Table.is_full, Table.append, hcap, decide_eq_true_eq, not_le,
          List.length_append, List.length_singleton] at hh
        omega
      exact ih (table.append tr) (by simpa [Table.append] using hcap)
        (by simp only [Table.append, List.length_append, List.length_singleton]; omega) p hp

/-- Every produced page except possibly the last holds exactly 12 tracks. -/
theorem paginateMain_dropLast (ts : List Track) :
    ∀ table : Table, table.width * table.height = 12 → table.cells.length < 12 →
      ∀ p ∈ (paginateMain ts table []).dropLast, p.cells.length = 12 := by
  induction ts with
  | nil =>
    intro table hcap hlen p hp
    by_cases h : table.is_empty
    · simp [paginateMain, h] at hp
    · simp [paginateMain, h] at hp
  | cons tr rest ih =>
    intro table hcap hlen p hp
    by_cases h : (table.append tr).is_full
    · have hfull : 12 ≤ table.cells.length + 1 := by
        simpa [Table.is_full, Table.append, hcap] using h
      rw [paginateMain, if_pos h, paginateMain_acc] at hp
      simp only [List.nil_append, List.singleton_append] at hp
      cases hP : paginateMain rest Table.new [] with
      | nil =>
        rw [hP] at hp
        simp at hp
      | cons q qs =>
        rw [hP, dropLast_cons₂] at hp
        rcases List.mem_cons.mp hp with rfl | hp'
        · simp only [Table.append, List.length_append, List.length_singleton]
          omega
        · have := ih Table.new rfl (by decide) p
          rw [hP] at this
          exact this hp'
    · have hnotfull : table.cells.length < 11 := by
        have hh := h
        simp only [Table.is_full, Table.append, hcap, decide_eq_true_eq, not_le,
          List.length_append, List.length_singleton] at hh
        omega
      rw [paginateMain, if_neg h] at hp
      exact ih (table.append tr) (by simpa [Table.append] using hcap)
        (by simp only [Table.append, List.length_append, List.length_singleton]; omega) p hp

/-- The last produced page holds `total % 12` tracks — or exactly 12 when
the total is a positive multiple of 12. -/
theorem paginateMain_getLast (ts : List Track) :
    ∀ table : Table, table.width * table.height = 12 → table.cells.length < 12 →
      0 < table.cells.length + ts.length →
      ∃ p, (paginateMain ts table []).getLast? = some p
        ∧ p.cells.length = (if (table.cells.length + ts.length) % 12 = 0 then 12
            else (table.cells.length + ts.length) % 12) := by
  induction ts with
  | nil =>
    intro table hcap hlen hpos
    simp only [List.length_nil, Nat.add_zero] at hpos
    have h : ¬ table.is_empty = true := by
      simp only [Table.is_empty, beq_iff_eq]
      omega
    refine ⟨table, ?_, ?_⟩
    · simp [paginateMain, h]
    · have hmod : table.cells.length % 12 = table.cells.length := Nat.mod_eq_of_lt hlen
      simp only [List.length_nil, Nat.add_zero]
      rw [if_neg (by omega)]
      omega
  | cons tr rest ih =>
    intro table hcap hlen hpos
    by_cases h : (table.append tr).is_full
    · have hfull : 12 ≤ table.cells.length + 1 := by
        simpa [Table.is_full, Table.append, hcap] using h
      rw [paginateMain, if_pos h, paginateMain_acc]
      simp only [List.nil_append, List.singleton_append]
      cases hrest : rest with
      | nil =>
        have hP : paginateMain ([] : List Track) Table.new [] = [] := by
          simp [paginateMain, Table.new, Table.is_empty]
        rw [hP]
        refine ⟨table.append tr, by simp, ?_⟩
        simp only [Table.append, List.length_append, List.length_singleton,
          List.length_cons, List.length_nil]
        rw [if_pos (by omega)]
        omega
      | cons r rs =>
        obtain ⟨p, hp1, hp2⟩ := ih Table.new rfl (by decide)
          (by rw [hrest]; simp [Table.new])
        rw [← hrest]
        refine ⟨p, ?_, ?_⟩
        · cases hPcase : paginateMain rest Table.new [] with
          | nil =>
            rw [hPcase] at hp1
            simp at hp1
          | cons q qs =>
            rw [hPcase] at hp1
            rw [List.getLast?_cons_cons]
            exact hp1
        · rw [hp2]
          rw [show Table.new.cells = ([] : List Track) from rfl]
          simp only [List.length_nil, List.length_cons, Nat.zero_add]
          split_ifs <;> omega
    · have hnotfull : table.cells.length < 11 := by
        have hh := h
        simp only [Table.is_full, Table.append, hcap, decide_eq_true_eq, not_le,
          List.length_append, List.length_singleton] at hh
        omega
      rw [paginateMain, if_neg h]
      obtain ⟨p, hp1, hp2⟩ := ih (table.append tr) (by simpa [Table.append] using hcap)
        (by simp only [Table.append, List.length_append, List.length_singleton]; omega)
        (by simp only [Table.append, List.length_append, List.length_singleton]; omega)
      refine ⟨p, hp1, ?_⟩
      rw [hp2]
      simp only [Table.append, List.length_append, List.length_singleton,
        List.length_cons, List.length_nil]
      split_ifs <;> omega

/-! ## Claim C2 — pagination exactness -/

/-- C2: for every input sequence of `N` tracks and page capacity 12
(width 3 × height 4), the pagination loop of `main.py` produces
`⌈N/12⌉ = (N+11)/12` pages (0 pages when `N = 0`), every page except
possibly the last holds exactly 12 tracks, no page ever holds more than 12
tracks, concatenating the pages' tracks in order reproduces the input
sequence exactly, and the last page holds `N mod 12` tracks (or 12 when `N`
is a positive multiple of 12). -/
theorem C2_pagination (tracks : List Track) :
    (paginate tracks).length = (tracks.length + 11) / 12
    ∧ (tracks = [] → paginate tracks = [])
    ∧ (∀ p ∈ (paginate tracks).dropLast, p.cells.length = 12)
    ∧ (∀ p ∈ paginate tracks, p.cells.length ≤ 12)
    ∧ ((paginate tracks).map Table.cells).flatten = tracks
    ∧ (tracks ≠ [] →
        ∃ p, (paginate tracks).getLast? = some p
          ∧ p.cells.length
              = if tracks.length % 12 = 0 then 12 else tracks.length % 12) := by
  have hnewcells : Table.new.cells = ([] : List Track) := rfl
  refine ⟨?_, ?_, ?_, ?_, ?_, ?_⟩
  · have h := paginateMain_length tracks Table.new rfl (by decide)
    rw [hnewcells] at h
    simpa [paginate] using h
  · intro h
    subst h
    simp [paginate, paginateMain, Table.new, Table.is_empty]
  · exact paginateMain_dropLast tracks Table.new rfl (by decide)
  · exact paginateMain_le tracks Table.new rfl (by decide)
  · have h := paginateMain_flatten tracks Table.new
    rw [hnewcells, List.nil_append] at h
    exact h
  · intro hne
    have hpos : 0 < Table.new.cells.length + tracks.length := by
      rw [hnewcells]
      simpa using List.length_pos.mpr hne
    obtain ⟨p, hp1, hp2⟩ := paginateMain_getLast tracks Table.new rfl (by decide) hpos
    rw [hnewcells] at hp2
    simp only [List.length_nil, Nat.zero_add] at hp2
    exact ⟨p, hp1, hp2⟩

/-- A dummy track used by the concrete witnesses. -/
def mkTrack (n : Nat) : Track :=
  { year := n, fname := [], title := [], artist := [], album := [],
    md5sum := [], url := [], cover_url := none, qr_path := [], qr_mm := 0 }

/-- A concrete input of 13 tracks (the spec's end-to-end scenario size). -/
def exTracks : List Track := (List.range 13).map mkTrack

/-- Witness for C2 at 13 concrete tracks: 2 pages, and the last page holds
`13 mod 12 = 1` track. -/
theorem C2_pagination_witness :
    (paginate exTracks).length = 2
    ∧ (∃ p, (paginate exTracks).getLast? = some p ∧ p.cells.length = 1) := by
  have h := C2_pagination exTracks
  have hlen : exTracks.length = 13 := by
    simp [exTracks]
  constructor
  · rw [h.1, hlen]
  · obtain ⟨p, hp1, hp2⟩ := h.2.2.2.2.2 (by simp [exTracks])
    rw [hlen] at hp2
    exact ⟨p, hp1, by simpa using hp2⟩

/-! ## Claim C1 — duplex column mirroring -/

/-- C1: for every track at 0-based index `i` on a page rendered in `qr`
mode, the card content is placed in the cell at the mirrored column
`width − 1 − (i mod width)` and row `i div width` (the QR group's origin is
the mirrored cell's center shifted by half the QR size, i.e. the QR is
centered in that cell), while the same index rendered in `title` mode is
placed at the unmirrored column `i mod width` and the same row (the year
text is anchored at that cell's center, offset 6.5 below). -/
theorem C1_duplex_mirroring (t : Table) (cfg : Config) (footer : List Char) (i : Nat)
    (hi : i < t.cells.length) :
    SvgElem.qrGroup
        (cellCenterX t (t.width - 1 - i % t.width) - (t.cells.get ⟨i, hi⟩).qr_mm / 2)
        (cellCenterY t (i / t.width) - (t.cells.get ⟨i, hi⟩).qr_mm / 2)
        (t.cells.get ⟨i, hi⟩).qr_path
      ∈ t.render_svg cfg Mode.qr footer
    ∧ SvgElem.text (cellCenterX t (i % t.width))
        (cellCenterY t (i / t.width) + 6.5) Anchor.middle ("year").data
        (toString (t.cells.get ⟨i, hi⟩).year).data
      ∈ t.render_svg cfg Mode.title footer := by
  have hienum : i < t.cells.enum.length := by simpa using hi
  have hmem : (i, t.cells.get ⟨i, hi⟩) ∈ t.cells.enum := by
    have heq := List.getElem_enum t.cells i hienum
    have hm := List.getElem_mem hienum
    rw [heq] at hm
    simpa [List.get_eq_getElem] using hm
  constructor
  · simp only [Table.render_svg]
    apply List.mem_append_left
    apply List.mem_append_right
    apply List.mem_flatMap.mpr
    refine ⟨(i, t.cells.get ⟨i, hi⟩), hmem, ?_⟩
    simp only [Track.qr_svg, List.mem_singleton]
    congr 1
    · unfold cellCenterX
      ring
    · unfold cellCenterY
      ring
  · simp only [Table.render_svg]
    apply List.mem_append_left
    apply List.mem_append_right
    apply List.mem_flatMap.mpr
    refine ⟨(i, t.cells.get ⟨i, hi⟩), hmem, ?_⟩
    simp only [List.cons_append, List.mem_cons]
    left
    rfl

/-- A concrete one-track table used by the rendering witnesses. -/
def exTable : Table := { cells := [mkTrack 0] }

/-- A concrete configuration with grid and crop marks enabled. -/
def exConfig : Config :=
  { font := ("sans").data, grid := true, crop_marks := true, out_dir := ("out").data }

/-- Witness for C1 at a concrete one-track page: index 0 lands at mirrored
column 2 on the qr side and column 0 on the title side. -/
theorem C1_duplex_mirroring_witness :
    SvgElem.qrGroup
        (cellCenterX exTable (exTable.width - 1 - 0 % exTable.width)
          - (exTable.cells.get ⟨0, by decide⟩).qr_mm / 2)
        (cellCenterY exTable (0 / exTable.width)
          - (exTable.cells.get ⟨0, by decide⟩).qr_mm / 2)
        (exTable.cells.get ⟨0, by decide⟩).qr_path
      ∈ exTable.render_svg exConfig Mode.qr (("1b").data)
    ∧ SvgElem.text (cellCenterX exTable (0 % exTable.width))
        (cellCenterY exTable (0 / exTable.width) + 6.5) Anchor.middle ("year").data
        (toString (exTable.cells.get ⟨0, by decide⟩).year).data
      ∈ exTable.render_svg exConfig Mode.title (("1a").data) :=
  C1_duplex_mirroring exTable exConfig (("1b").data) 0 (by decide) |>.1
    |> fun h => ⟨h, (C1_duplex_mirroring exTable exConfig (("1a").data) 0 (by decide)).2⟩

/-! ## Claim C8 — margin symmetry -/

/-- C8: in the card geometry of `render_svg`, for any layout parameters the
horizontal margin equals `(pageWidth − columns×side)/2` and the vertical
margin is set equal to the horizontal margin rather than being computed
from the page height: the table outline rectangle is emitted with its
vertical offset equal to its horizontal offset. -/
theorem C8_margin_symmetry (t : Table) (cfg : Config) (mode : Mode) (footer : List Char)
    (hg : cfg.grid = true) :
    SvgElem.rect ((210 - 62 * t.width) / 2) ((210 - 62 * t.width) / 2)
        (62 * t.width) (62 * t.height)
      ∈ t.render_svg cfg mode footer := by
  simp only [Table.render_svg, hg]
  apply List.mem_append_left
  apply List.mem_append_left
  apply List.mem_append_left
  apply List.mem_append_left
  apply List.mem_append_right
  simp

/-- Witness for C8 at the concrete one-track 3×4 page: the outline rect
sits at `x = y = (210 − 186)/2 = 12`. -/
theorem C8_margin_symmetry_witness :
    SvgElem.rect ((210 - 62 * exTable.width) / 2) ((210 - 62 * exTable.width) / 2)
        (62 * exTable.width) (62 * exTable.height)
      ∈ exTable.render_svg exConfig Mode.qr (("1b").data) :=
  C8_margin_symmetry exTable exConfig Mode.qr (("1b").data) rfl

/-! ## Sheet Pipeline Driver: helper lemmas -/

/-- Each polling step sleeps `1/10` time-units, so `n` retries advance the
clock by at most `n/10`. -/
theorem pollFile_le (fs : List Char → Option ℚ) (f : List Char) :
    ∀ (n : Nat) (t : ℚ), pollFile fs f t n ≤ t + n / 10 := by
  intro n
  induction n with
  | zero =>
    intro t
    simp [pollFile]
  | succ n ih =>
    intro t
    rw [pollFile]
    by_cases h : isfile fs t f
    · rw [if_pos h]
      have : (0 : ℚ) ≤ ((n : ℚ) + 1) / 10 := by positivity
      push_cast
      linarith
    · rw [if_neg h]
      have := ih (t + 1 / 10)
      push_cast
      push_cast at this
      linarith

/-- A left fold that only ever appends blocks builds the flat concatenation
of the blocks after the initial accumulator. -/
theorem foldl_append_extend {α β : Type} (g : α → List β) :
    ∀ (l : List α) (acc : List β),
      l.foldl (fun acc x => acc ++ g x) acc = acc ++ l.flatMap g := by
  intro l
  induction l with
  | nil => intro acc; simp
  | cons x xs ih =>
    intro acc
    rw [List.foldl_cons, ih (acc ++ g x), List.flatMap_cons, List.append_assoc]

/-- A flatMap that only looks at the first components factors through
`map Prod.fst`. -/
theorem flatMap_fst {α β : Type} (u : Nat → List β) (l : List (Nat × α)) :
    l.flatMap (fun p => u p.1) = (l.map Prod.fst).flatMap u := by
  induction l with
  | nil => rfl
  | cons p ps ih => simp [List.flatMap_cons, ih]

/-- `pdf_outputs` is the interleaved `[1a.pdf, 1b.pdf, 2a.pdf, 2b.pdf, …]`. -/
theorem pdfOutputs_eq (tables : List Table) :
    pdfOutputs tables
      = (List.range tables.length).flatMap
          (fun i => [pdfName (i + 1) ['a'], pdfName (i + 1) ['b']]) := by
  rw [pdfOutputs, foldl_append_extend, List.nil_append,
    flatMap_fst (fun i => [pdfName (i + 1) ['a'], pdfName (i + 1) ['b']]),
    List.enum_map_fst]

/-- `pdf_inputs` is the interleaved `[1a.svg, 1b.svg, 2a.svg, 2b.svg, …]`. -/
theorem pdfInputs_eq (tables : List Table) :
    pdfInputs tables
      = (List.range tables.length).flatMap
          (fun i => [svgName (i + 1) ['a'], svgName (i + 1) ['b']]) := by
  rw [pdfInputs, foldl_append_extend, List.nil_append,
    flatMap_fst (fun i => [svgName (i + 1) ['a'], svgName (i + 1) ['b']]),
    List.enum_map_fst]

/-- Length and element structure of an interleaved two-block flatMap over
`range n`. -/
theorem interleave_spec {β : Type} (u v : Nat → β) :
    ∀ n : Nat,
      ((List.range n).flatMap (fun i => [u i, v i])).length = 2 * n
      ∧ ∀ i, i < n →
        ((List.range n).flatMap (fun i => [u i, v i]))[2 * i]? = some (u i)
        ∧ ((List.range n).flatMap (fun i => [u i, v i]))[2 * i + 1]? = some (v i) := by
  intro n
  induction n with
  | zero => simp
  | succ n ih =>
    rw [List.range_succ, List.flatMap_append]
    constructor
    · rw [List.length_append, ih.1]
      simp
      omega
    · intro i hi
      rcases Nat.lt_or_ge i n with h | h
      · have h2i : 2 * i < ((List.range n).flatMap (fun i => [u i, v i])).length := by
          rw [ih.1]; omega
        have h2i1 : 2 * i + 1 < ((List.range n).flatMap (fun i => [u i, v i])).length := by
          rw [ih.1]; omega
        rw [List.getElem?_append, if_pos h2i, List.getElem?_append, if_pos h2i1]
        exact ih.2 i h
      · have hin : i = n := by omega
        subst hin
        have hlen : ((List.range i).flatMap (fun i => [u i, v i])).length = 2 * i := ih.1
        constructor
        · rw [List.getElem?_append, if_neg (by omega), hlen]
          simp
        · rw [List.getElem?_append, if_neg (by omega), hlen]
          simp

/-- `(i, l[i]) ∈ l.enum`. -/
theorem enum_get_mem {α : Type} (l : List α) (i : Nat) (hi : i < l.length) :
    (i, l.get ⟨i, hi⟩) ∈ l.enum := by
  have hienum : i < l.enum.length := by simpa using hi
  have heq := List.getElem_enum l i hienum
  have hm := List.getElem_mem hienum
  rw [heq] at hm
  simpa [List.get_eq_getElem] using hm

/-- For each page `i`, the title side is written to `{i+1}a.svg` and the qr
side to `{i+1}b.svg`, each rendered with the matching footer. -/
theorem svgWrites_mem (cfg : Config) (tables : List Table) (i : Nat)
    (hi : i < tables.length) :
    (svgName (i + 1) ['a'],
      (tables.get ⟨i, hi⟩).render_svg cfg Mode.title ((toString (i + 1)).data ++ ['a']))
      ∈ svgWrites cfg tables
    ∧ (svgName (i + 1) ['b'],
      (tables.get ⟨i, hi⟩).render_svg cfg Mode.qr ((toString (i + 1)).data ++ ['b']))
      ∈ svgWrites cfg tables := by
  rw [svgWrites, foldl_append_extend, List.nil_append]
  constructor
  · exact List.mem_flatMap.mpr ⟨(i, tables.get ⟨i, hi⟩), enum_get_mem tables i hi, by simp⟩
  · exact List.mem_flatMap.mpr ⟨(i, tables.get ⟨i, hi⟩), enum_get_mem tables i hi, by simp⟩

/-- If some pdf in the job list never appears, the conversion loop reaches
a job whose final existence re-check fails and aborts with exit status 1,
naming a pdf from the job list. -/
theorem convertLoop_error (fs : List Char → Option ℚ) :
    ∀ (pairs : List (List Char × List Char)) (t : ℚ),
      (∃ pr ∈ pairs, fs pr.2 = none) →
      ∃ g, (∃ pr ∈ pairs, pr.2 = g)
        ∧ convertLoop fs pairs t = Except.error (1, g) := by
  intro pairs
  induction pairs with
  | nil =>
    intro t h
    simp at h
  | cons pr rest ih =>
    intro t h
    by_cases hcur : isfile fs (pollFile fs pr.2 t 20) pr.2
    · obtain ⟨q, hq, hqnone⟩ := h
      have hq' : q ∈ rest := by
        rcases List.mem_cons.mp hq with rfl | h'
        · simp [isfile, hqnone] at hcur
        · exact h'
      obtain ⟨g, ⟨pr', hpr', hg⟩, herr⟩ := ih (pollFile fs pr.2 t 20) ⟨q, hq', hqnone⟩
      refine ⟨g, ⟨pr', List.mem_cons_of_mem _ hpr', hg⟩, ?_⟩
      rw [convertLoop, if_pos hcur]
      exact herr
    · refine ⟨pr.2, ⟨pr, List.mem_cons_self _ _, rfl⟩, ?_⟩
      rw [convertLoop, if_neg hcur]

/-- A successful `generate_cards` run returns exactly the writes, the merge
order and the final path computed from its inputs. -/
theorem generate_cards_ok (fs : List Char → Option ℚ) (tables : List Table)
    (cfg : Config) (out : RunOutput)
    (h : generate_cards fs tables cfg = Except.ok out) :
    out.writes = svgWrites cfg tables
    ∧ out.mergedOrder = pdfOutputs tables
    ∧ out.finalPdf = cfg.out_dir ++ ("/cards.pdf").data := by
  rw [generate_cards] at h
  cases hcv : convertLoop fs ((pdfInputs tables).zip (pdfOutputs tables)) 0 with
  | error e =>
    rw [hcv] at h
    simp at h
  | ok t =>
    rw [hcv] at h
    simp only [Except.ok.injEq] at h
    rw [← h]
    exact ⟨rfl, rfl, rfl⟩

/-! ## Claim C6 — bounded polling and fatal abort before merge -/

/-- C6: after invoking the converter for a page side, the output file's
existence is polled with at most 20 retries, 0.1 time-units apart (so the
poll loop advances the clock by at most 2 time-units); if some output file
never exists, the run aborts with exit status 1 — naming one of the
expected pdf files — before the merge step, so `generate_cards` never
returns a merged `RunOutput`. -/
theorem C6_missing_pdf_aborts (fs : List Char → Option ℚ) (tables : List Table)
    (cfg : Config) (hfail : ∃ f ∈ pdfOutputs tables, fs f = none) :
    (∃ g ∈ pdfOutputs tables,
      generate_cards fs tables cfg = Except.error (1, g))
    ∧ (∀ out : RunOutput, generate_cards fs tables cfg ≠ Except.ok out)
    ∧ (∀ (f : List Char) (u : ℚ), pollFile fs f u 20 ≤ u + 2) := by
  obtain ⟨f, hf, hfnone⟩ := hfail
  have hlen : (pdfInputs tables).length = (pdfOutputs tables).length := by
    rw [pdfInputs_eq, pdfOutputs_eq, (interleave_spec _ _ tables.length).1,
      (interleave_spec _ _ tables.length).1]
  obtain ⟨k, hk, hkf⟩ := List.mem_iff_getElem.mp hf
  have hkzip : k < ((pdfInputs tables).zip (pdfOutputs tables)).length := by
    rw [List.length_zip]
    omega
  have hkin : k < (pdfInputs tables).length := by omega
  have hzipped : ((pdfInputs tables).zip (pdfOutputs tables)).get ⟨k, hkzip⟩
      = ((pdfInputs tables).get ⟨k, hkin⟩, (pdfOutputs tables).get ⟨k, hk⟩) := by
    simp [List.get_eq_getElem, List.getElem_zip]
  have hprmem : ((pdfInputs tables).get ⟨k, hkin⟩, (pdfOutputs tables).get ⟨k, hk⟩)
      ∈ (pdfInputs tables).zip (pdfOutputs tables) := by
    rw [← hzipped]
    exact List.get_mem _ _ _
  obtain ⟨g, ⟨pr', hpr', hg⟩, herr⟩ :=
    convertLoop_error fs ((pdfInputs tables).zip (pdfOutputs tables)) 0
      ⟨((pdfInputs tables).get ⟨k, hkin⟩, (pdfOutputs tables).get ⟨k, hk⟩), hprmem,
        by rw [show ((pdfInputs tables).get ⟨k, hkin⟩,
              (pdfOutputs tables).get ⟨k, hk⟩).2 = (pdfOutputs tables).get ⟨k, hk⟩ from rfl,
            List.get_eq_getElem, hkf]
           exact hfnone⟩
  have hgmem : g ∈ pdfOutputs tables := by
    obtain ⟨a, b⟩ := pr'
    have hb : b = g := hg
    rw [← hb]
    exact (List.of_mem_zip hpr').2
  refine ⟨⟨g, hgmem, ?_⟩, ?_, ?_⟩
  · rw [generate_cards, herr]
  · intro out hok
    rw [generate_cards, herr] at hok
    simp at hok
  · intro f' u
    have := pollFile_le fs f' 20 u
    norm_num at this
    exact this

/-- Witness for C6: with a filesystem oracle on which no file ever appears,
the one-page run aborts with exit status 1 and never merges. -/
theorem C6_missing_pdf_aborts_witness :
    (∃ g ∈ pdfOutputs [exTable],
      generate_cards (fun _ => none) [exTable] exConfig = Except.error (1, g))
    ∧ (∀ out : RunOutput,
        generate_cards (fun _ => none) [exTable] exConfig ≠ Except.ok out)
    ∧ (∀ (f : List Char) (u : ℚ), pollFile (fun _ => none) f u 20 ≤ u + 2) :=
  C6_missing_pdf_aborts (fun _ => none) [exTable] exConfig
    ⟨pdfName 1 ['a'], by decide, rfl⟩

/-! ## Claim C7 — deterministic naming and interleaved merge order -/

/-- C7: the driver names the 1-indexed intermediate files `{p}a` for the
title side and `{p}b` for the code side (writing each side's rendering to
its own svg file), and any successful run merges the converted per-side
documents exactly in the interleaved order `[1a, 1b, 2a, 2b, …]` — element
`2i` of the merge order is page `i+1` side `a` and element `2i+1` is page
`i+1` side `b`, never grouping all title sides before all code sides. -/
theorem C7_interleaved_merge (tables : List Table) (cfg : Config) :
    (∀ (fs : List Char → Option ℚ) (out : RunOutput),
      generate_cards fs tables cfg = Except.ok out →
      out.writes = svgWrites cfg tables ∧ out.mergedOrder = pdfOutputs tables)
    ∧ (pdfOutputs tables).length = 2 * tables.length
    ∧ (∀ i, i < tables.length →
        (pdfOutputs tables)[2 * i]? = some (pdfName (i + 1) ['a'])
        ∧ (pdfOutputs tables)[2 * i + 1]? = some (pdfName (i + 1) ['b']))
    ∧ (∀ (i : Nat) (hi : i < tables.length),
        (svgName (i + 1) ['a'],
          (tables.get ⟨i, hi⟩).render_svg cfg Mode.title
            ((toString (i + 1)).data ++ ['a'])) ∈ svgWrites cfg tables
        ∧ (svgName (i + 1) ['b'],
          (tables.get ⟨i, hi⟩).render_svg cfg Mode.qr
            ((toString (i + 1)).data ++ ['b'])) ∈ svgWrites cfg tables) := by
  refine ⟨?_, ?_, ?_, ?_⟩
  · intro fs out hok
    exact ⟨(generate_cards_ok fs tables cfg out hok).1,
      (generate_cards_ok fs tables cfg out hok).2.1⟩
  · rw [pdfOutputs_eq]
    exact (interleave_spec _ _ tables.length).1
  · intro i hi
    rw [pdfOutputs_eq]
    exact (interleave_spec _ _ tables.length).2 i hi
  · intro i hi
    exact svgWrites_mem cfg tables i hi

/-- Witness for C7 on a one-page deck: the merge order starts
`[1a.pdf, 1b.pdf]`. -/
theorem C7_interleaved_merge_witness :
    (pdfOutputs [exTable])[0]? = some (pdfName 1 ['a'])
    ∧ (pdfOutputs [exTable])[1]? = some (pdfName 1 ['b']) := by
  have h := (C7_interleaved_merge [exTable] exConfig).2.2.1 0 (by decide)
  simpa using h
